import Mathlib

/-!
Verification of the NPC shop bot's record store, reference resolver,
pagination controller and action gate (shallow embedding of src/m7m.py).

A worksheet cell holds either an integer, a text string, or nothing
(an empty cell, Python `None`).  A table is the header row plus the data
rows, exactly as `ExcelManager` sees a sheet.  Record dictionaries are
association lists built in insertion order where a later binding for the
same key shadows an earlier one, matching Python `dict` semantics for the
`get`/`[...]=` operations the source uses.
-/

namespace NPCBot

/-- A worksheet cell value: integer, string, or empty (`None`). -/
inductive Value where
  | vInt (n : Int)
  | vStr (s : String)
  | vNone
deriving DecidableEq, Repr

/-- Python truthiness of a cell value (`if row[0]:`): nonzero integers and
nonempty strings are truthy; `None` is falsy. -/
def Value.truthy : Value → Bool
  | .vInt n => n != 0
  | .vStr s => s != ""
  | .vNone => false

/-- A data row of the worksheet, one cell per column. -/
abbrev Row := List Value

/-- A record dictionary: bindings in insertion order, later bindings for a
key shadow earlier ones (Python `dict`). -/
abbrev Dict := List (String × Value)

/-- `d.get(k)`: the value of the last binding of `k`, if any. -/
def dictGet (d : Dict) (k : String) : Option Value :=
  d.foldl (fun acc p => if p.1 == k then some p.2 else acc) none

/-- `d[k] = v`: bind `k` to `v`; with last-binding-wins lookup, appending
the pair realises Python assignment for every later `get`. -/
def dictSet (d : Dict) (k : String) (v : Value) : Dict := d ++ [(k, v)]

/-- A table as `ExcelManager` sees a worksheet: the header row and the data
rows (rows 2.. of the sheet). -/
structure Table where
  headers : List String
  rows : List Row
deriving DecidableEq, Repr

/-- The NPC sheet header row created by `ensure_file_exists`. -/
def npcHeaders : List String :=
  ["id", "nombre", "descripcion", "imagen_url", "rol",
   "canal_id", "inventario", "creador_id", "fecha_creacion", "mensaje_id"]

/-- The Item sheet header row created by `ensure_file_exists`. -/
def itemHeaders : List String :=
  ["id", "nombre", "descripcion", "imagen_url", "categoria",
   "propiedades", "creador_id", "fecha_creacion"]

/-- One step of the `get_next_id` scan
(`if row[0] and isinstance(row[0], int): max_id = max(max_id, row[0])`):
a truthy integer first cell raises the running maximum. -/
def idMaxStep (maxId : Int) (r : Row) : Int :=
  match r.head? with
  | some (.vInt n) => if n != 0 then max maxId n else maxId
  | _ => maxId

/-- `ExcelManager.get_next_id`: fold over the first cell of every data row,
keeping the max over cells that are truthy integers, then add 1. -/
def get_next_id (t : Table) : Int :=
  (t.rows.foldl idMaxStep 0) + 1

/-- Build the record dictionary of one row
(`for i, header in enumerate(headers): if i < len(row): record[header] = row[i]`):
the pairs of headers with cells, up to the shorter length. -/
def rowToRecord (headers : List String) (r : Row) : Dict :=
  headers.zip r

/-- `ExcelManager.get_all_records`: rows whose first cell is truthy, each
turned into its record dictionary. -/
def get_all_records (t : Table) : List Dict :=
  (t.rows.filter (fun r => (r.head?.getD .vNone).truthy)).map (rowToRecord t.headers)

/-- `ExcelManager.get_record_by_id`: first record whose `id` entry equals
the integer `rid` (`record.get("id") == record_id`). -/
def get_record_by_id (t : Table) (rid : Int) : Option Dict :=
  (get_all_records t).find? (fun rec => dictGet rec "id" == some (.vInt rid))

/-- `ExcelManager.add_record`: compute the next id, bind `id` and
`fecha_creacion` in the data dictionary, build the row from the headers
with `data.get(header, "")`, and append it.  Returns the new table and
the new id.  The timestamp `now` stands for `datetime.now().isoformat()`. -/
def add_record (t : Table) (data : Dict) (now : String) : Table × Int :=
  let new_id := get_next_id t
  let data' := dictSet (dictSet data "id" (.vInt new_id)) "fecha_creacion" (.vStr now)
  let row_data := t.headers.map (fun h => (dictGet data' h).getD (.vStr ""))
  ({ t with rows := t.rows ++ [row_data] }, new_id)

/-- The cell updates of `ExcelManager.update_record` on the matched row:
for each update entry in order, if its key is a header, write the value at
the first column carrying that header (`headers.index(header)`); keys that
are not headers are skipped. -/
def applyUpdates (headers : List String) (r : Row) (updates : List (String × Value)) : Row :=
  updates.foldl
    (fun row p => if p.1 ∈ headers then row.set (headers.indexOf p.1) p.2 else row) r

/-- The row scan of `ExcelManager.update_record`: find the first row whose
first cell equals the id, replace it by the updated row; `none` when no
row matches. -/
def updateRows (headers : List String) (rid : Int) (updates : List (String × Value)) :
    List Row → Option (List Row)
  | [] => none
  | r :: rs =>
    if r.head? == some (.vInt rid) then
      some (applyUpdates headers r updates :: rs)
    else
      (updateRows headers rid updates rs).map (r :: ·)

/-- `ExcelManager.update_record`: update the first matching row in place
and report `true`; report `false` and leave the table as it was when no
row's first cell equals `rid`. -/
def update_record (t : Table) (rid : Int) (updates : List (String × Value)) : Table × Bool :=
  match updateRows t.headers rid updates t.rows with
  | some rs => ({ t with rows := rs }, true)
  | none => (t, false)

/-- The row scan of `ExcelManager.delete_record`: remove the first row
whose first cell equals the id; `none` when no row matches. -/
def deleteRows (rid : Int) : List Row → Option (List Row)
  | [] => none
  | r :: rs =>
    if r.head? == some (.vInt rid) then some rs
    else (deleteRows rid rs).map (r :: ·)

/-- `ExcelManager.delete_record`: delete the first matching row and report
`true`; report `false` and leave the table unchanged when no row matches. -/
def delete_record (t : Table) (rid : Int) : Table × Bool :=
  match deleteRows rid t.rows with
  | some rs => ({ t with rows := rs }, true)
  | none => (t, false)

/-- Whether some data row's first cell is the integer `rid` (the condition
`row[0].value == record_id` that `update_record`/`delete_record` scan for). -/
def presentB (t : Table) (rid : Int) : Bool :=
  t.rows.any (fun r => r.head? == some (.vInt rid))

/-- The reference resolution performed by `NPCCommands.crear_embed_npc`
over an NPC's inventory id list: look each id up in the item table and
keep, in order, exactly the records that were found (the loop appends a
rendered line only when `get_record_by_id` returned a record). -/
def resolve (itemT : Table) (ids : List Int) : List Dict :=
  ids.filterMap (fun i => get_record_by_id itemT i)

/-- Python `s.split(",")` over the character list: the segments between
commas, with an empty segment for adjacent commas and at the ends. -/
def splitCommaAux : List Char → List Char → List (List Char)
  | [], acc => [acc.reverse]
  | c :: cs, acc =>
    if c = ',' then acc.reverse :: splitCommaAux cs []
    else splitCommaAux cs (c :: acc)

/-- The characters Python `str.strip()` removes. -/
def pyIsSpace (c : Char) : Bool :=
  c = ' ' || c = '\t' || c = '\n' || c = '\r' || c = '\x0b' || c = '\x0c'

/-- Python `x.strip()`: drop whitespace from both ends. -/
def trimChars (cs : List Char) : List Char :=
  ((cs.dropWhile pyIsSpace).reverse.dropWhile pyIsSpace).reverse

/-- The digit-run part of Python `int(...)`: the value of a nonempty
all-digit character list, `none` otherwise. -/
def digitsVal : List Char → Nat → Option Nat
  | [], acc => some acc
  | c :: cs, acc =>
    if c.isDigit then digitsVal cs (acc * 10 + (c.toNat - '0'.toNat)) else none

/-- Python `int(x)` on an already stripped string: an optional sign followed
by at least one digit; `none` models the `ValueError` on anything else. -/
def pyInt (cs : List Char) : Option Int :=
  match cs with
  | [] => none
  | '-' :: rest =>
    if rest = [] then none else (digitsVal rest 0).map (fun n => -(n : Int))
  | '+' :: rest =>
    if rest = [] then none else (digitsVal rest 0).map (fun n => (n : Int))
  | rest => (digitsVal rest 0).map (fun n => (n : Int))

/-- The inventory parse
`[int(x.strip()) for x in s.split(",") if x.strip()]`: split on commas,
keep the entries whose stripped text is nonempty, and read each as an
integer; `none` models the `ValueError` that `int` raises on a
non-numeric entry. -/
def parseInv (s : String) : Option (List Int) :=
  ((splitCommaAux s.data []).filter (fun x => trimChars x != [])).mapM
    (fun x => pyInt (trimChars x))

/-- The inventory serialisation `",".join(str(x) for x in items)`. -/
def serializeInv (items : List Int) : String :=
  String.intercalate "," (items.map toString)

/-- The creator comparison `str(interaction.user.id) != npc.get("creador_id")`
(negated): a string compared with a cell value or a missing key is equal
only to an equal string cell. -/
def actorMatchesCreator (actorId : String) (creador : Option Value) : Bool :=
  match creador with
  | some (.vStr s) => actorId == s
  | _ => false

/-- Action gate of `npc_editar` (line 464): allowed unless the actor is
not the creator and lacks the manage-channels capability. -/
def npc_editar_allowed (actorId : String) (npc : Dict) (manage : Bool) : Bool :=
  !((!actorMatchesCreator actorId (dictGet npc "creador_id")) && !manage)

/-- Action gate of `npc_eliminar` (line 516): the same creator-or-manage
check. -/
def npc_eliminar_allowed (actorId : String) (npc : Dict) (manage : Bool) : Bool :=
  !((!actorMatchesCreator actorId (dictGet npc "creador_id")) && !manage)

/-- Action gate of `npc_item_agregar` (line 638): the same
creator-or-manage check. -/
def npc_item_agregar_allowed (actorId : String) (npc : Dict) (manage : Bool) : Bool :=
  !((!actorMatchesCreator actorId (dictGet npc "creador_id")) && !manage)

/-- Action gate of `npc_item_quitar` (line 684): the same creator-or-manage
check. -/
def npc_item_quitar_allowed (actorId : String) (npc : Dict) (manage : Bool) : Bool :=
  !((!actorMatchesCreator actorId (dictGet npc "creador_id")) && !manage)

/-- Outcome reported by the `npc_item_agregar` handler. -/
inductive AddItemResult where
  | npcNotFound
  | itemNotFound
  | noPerms
  | alreadyHas
  | added
  | updateFailed
deriving DecidableEq, Repr

/-- The inventory cell as the string the handler calls `.split` on:
Python `npc.get("inventario", "")` gives `""` when the key is absent and
the stored value otherwise; `none` models the `AttributeError` raised when
the stored value is not a string. -/
def invFieldString (npc : Dict) : Option String :=
  match dictGet npc "inventario" with
  | none => some ""
  | some (.vStr s) => some s
  | some _ => none

/-- `NPCCommands.npc_item_agregar` on the two tables: look up the NPC and
the item, check permissions, parse the inventory, reject a duplicate item
id, otherwise append the id and store the re-joined list through
`update_record`.  The outer `none` models an uncaught exception in the
inventory handling. -/
def npc_item_agregar (npcT itemT : Table) (npc_id item_id : Int)
    (actorId : String) (manage : Bool) : Option (Table × AddItemResult) :=
  match get_record_by_id npcT npc_id with
  | none => some (npcT, .npcNotFound)
  | some npc =>
    match get_record_by_id itemT item_id with
    | none => some (npcT, .itemNotFound)
    | some _ =>
      if !npc_item_agregar_allowed actorId npc manage then
        some (npcT, .noPerms)
      else
        match invFieldString npc with
        | none => none
        | some s =>
          match parseInv s with
          | none => none
          | some items =>
            if item_id ∈ items then some (npcT, .alreadyHas)
            else
              let nuevo := serializeInv (items ++ [item_id])
              let res := update_record npcT npc_id [("inventario", .vStr nuevo)]
              if res.2 then some (res.1, .added) else some (res.1, .updateFailed)

/-- The page chunking of `npc_listar`
(`for i in range(0, len(npcs), 5): page = npcs[i:i+5]`): successive
slices of five. -/
def chunk5 {α : Type} : List α → List (List α)
  | [] => []
  | x :: xs => ((x :: xs).take 5) :: chunk5 ((x :: xs).drop 5)
termination_by l => l.length
decreasing_by simp [List.length_drop]; omega

/-- `PaginationView.previous_button`: `max(0, current_page - 1)`. -/
def prevCursor (c : Int) : Int := max 0 (c - 1)

/-- `PaginationView.next_button`: `min(len(embeds) - 1, current_page + 1)`. -/
def nextCursor (numPages c : Int) : Int := min (numPages - 1) (c + 1)

/-- `PaginationView.update_buttons` for the previous button:
`disabled = current_page == 0`. -/
def prevDisabled (c : Int) : Bool := c == 0

/-- `PaginationView.update_buttons` for the next button:
`disabled = current_page >= len(embeds) - 1`. -/
def nextDisabled (numPages c : Int) : Bool := decide (numPages - 1 ≤ c)

/-- The pair of tables the bot holds (`npc_manager`, `item_manager`). -/
structure BotState where
  npcs : Table
  items : Table
deriving DecidableEq, Repr

/-- Deleting an NPC record only calls `delete_record` on the NPC table. -/
def deleteNpc (s : BotState) (rid : Int) : BotState × Bool :=
  let res := delete_record s.npcs rid
  (⟨res.1, s.items⟩, res.2)

/-- The integer in a row's first cell, when it holds one. -/
def rowIdInt (r : Row) : Option Int :=
  match r.head? with
  | some (.vInt n) => some n
  | _ => none

/-- The integer ids the table currently holds in its id column. -/
def tableIds (t : Table) : List Int :=
  t.rows.filterMap rowIdInt

/-- The sheet's id column is the first header and no other column is
called `id` (true of both sheets `ensure_file_exists` creates). -/
def idAtHeadOnly (hs : List String) : Prop :=
  hs.head? = some "id" ∧ "id" ∉ hs.tail

/-- An empty NPC table: the header row with no data rows. -/
def emptyNpcTable : Table := ⟨npcHeaders, []⟩

/-! ## Helper lemmas about the id scan -/

theorem idMaxStep_le (acc : Int) (r : Row) : acc ≤ idMaxStep acc r := by
  unfold idMaxStep
  cases h : r.head? with
  | none => exact le_refl acc
  | some v =>
    cases v with
    | vInt n =>
      by_cases hn : (n != 0) = true
      · simp [hn]
      · simp [hn]
    | vStr s => exact le_refl acc
    | vNone => exact le_refl acc

theorem le_foldl_idMaxStep (rows : List Row) (acc : Int) :
    acc ≤ rows.foldl idMaxStep acc := by
  induction rows generalizing acc with
  | nil => exact le_refl acc
  | cons r rs ih =>
    calc acc ≤ idMaxStep acc r := idMaxStep_le acc r
      _ ≤ rs.foldl idMaxStep (idMaxStep acc r) := ih (idMaxStep acc r)

theorem id_le_foldl_idMaxStep (rows : List Row) (acc : Int) (r : Row) (n : Int)
    (hr : r ∈ rows) (hn : rowIdInt r = some n) (hn0 : n ≠ 0) :
    n ≤ rows.foldl idMaxStep acc := by
  induction rows generalizing acc with
  | nil => cases hr
  | cons r' rs ih =>
    rcases List.mem_cons.mp hr with h | h
    · subst h
      have hstep : n ≤ idMaxStep acc r := by
        unfold idMaxStep
        unfold rowIdInt at hn
        cases hh : r.head? with
        | none => simp [hh] at hn
        | some v =>
          cases v with
          | vInt m =>
            simp [hh] at hn
            subst hn
            simp [bne, hn0]
          | vStr s => simp [hh] at hn
          | vNone => simp [hh] at hn
      calc n ≤ idMaxStep acc r := hstep
        _ ≤ rs.foldl idMaxStep (idMaxStep acc r) := le_foldl_idMaxStep rs _
    · exact ih _ h

theorem foldl_idMaxStep_mem (rows : List Row) (acc : Int)
    (hpos : ∀ n ∈ rows.filterMap rowIdInt, 0 < n) :
    rows.foldl idMaxStep acc = acc ∨
      rows.foldl idMaxStep acc ∈ rows.filterMap rowIdInt := by
  induction rows generalizing acc with
  | nil => exact Or.inl rfl
  | cons r rs ih =>
    have hpos' : ∀ n ∈ rs.filterMap rowIdInt, 0 < n := by
      intro n hn
      apply hpos n
      cases h : rowIdInt r with
      | none => simpa only [List.filterMap_cons, h] using hn
      | some m =>
        simp only [List.filterMap_cons, h]
        exact List.mem_cons_of_mem _ hn
    cases hh : rowIdInt r with
    | none =>
      have hstep : idMaxStep acc r = acc := by
        unfold idMaxStep; unfold rowIdInt at hh
        cases h : r.head? with
        | none => rfl
        | some v => cases v <;> simp [h] at hh ⊢
      rcases ih (idMaxStep acc r) hpos' with h1 | h1
      · exact Or.inl (by rw [List.foldl_cons, h1, hstep])
      · refine Or.inr ?_
        rw [List.foldl_cons]
        simp only [List.filterMap_cons, hh]
        exact h1
    | some m =>
      have hm : 0 < m := by
        apply hpos m
        simp only [List.filterMap_cons, hh]
        exact List.mem_cons_self m _
      have hstep : idMaxStep acc r = max acc m := by
        unfold idMaxStep; unfold rowIdInt at hh
        cases h : r.head? with
        | none => simp [h] at hh
        | some v =>
          cases v with
          | vInt k =>
            rw [h] at hh
            simp at hh
            subst hh
            have hk : (k != 0) = true := by
              simp only [bne_iff_ne, ne_eq]
              omega
            simp [idMaxStep, h, hk]
          | vStr s => simp [h] at hh
          | vNone => simp [h] at hh
      rcases ih (idMaxStep acc r) hpos' with h1 | h1
      · rw [List.foldl_cons, h1, hstep]
        rcases max_choice acc m with h2 | h2
        · exact Or.inl h2
        · refine Or.inr ?_
          simp only [List.filterMap_cons, hh, h2]
          exact List.mem_cons_self m _
      · refine Or.inr ?_
        rw [List.foldl_cons]
        simp only [List.filterMap_cons, hh]
        exact List.mem_cons_of_mem _ h1

/-! ## Claim theorems -/

/-- Claim C1, counterexample: starting from an empty NPC table, two creates
assign ids 1 and 2, deleting id 2 succeeds, and the next create assigns
id 2 again — an id previously assigned and freed by a delete is reused,
refuting the claim that a freed id is never reused by a later create. -/
theorem id_reuse_after_delete_cex :
    let s1 := add_record emptyNpcTable [] "t1"
    let s2 := add_record s1.1 [] "t2"
    let s3 := delete_record s2.1 2
    let s4 := add_record s3.1 [] "t3"
    s2.2 = 2 ∧ s3.2 = true ∧ s4.2 = 2 := by decide

/-- Claim C1 (amended): every newly created record's id is strictly greater
than every integer id currently present in the table at creation time (it
is `max(present ids) + 1`); an id that was assigned earlier but freed by a
delete — and hence is no longer present — can be reused by a later create. -/
theorem id_above_all_present (t : Table) (data : Dict) (now : String)
    (r : Row) (hr : r ∈ t.rows) (n : Int) (hn : rowIdInt r = some n) :
    n < (add_record t data now).2 := by
  have h2 : (add_record t data now).2 = (t.rows.foldl idMaxStep 0) + 1 := rfl
  rw [h2]
  by_cases hn0 : n = 0
  · subst hn0
    have := le_foldl_idMaxStep t.rows 0
    omega
  · have := id_le_foldl_idMaxStep t.rows 0 r n hr hn hn0
    omega

/-- Witness for the amended claim C1: in a table holding ids 1 and 3, the
id assigned by the next create is above both. -/
theorem id_above_all_present_witness :
    1 < (add_record ⟨npcHeaders, [[Value.vInt 1], [Value.vInt 3]]⟩ [] "t").2 ∧
      3 < (add_record ⟨npcHeaders, [[Value.vInt 1], [Value.vInt 3]]⟩ [] "t").2 :=
  ⟨id_above_all_present _ [] "t" [Value.vInt 1] (by decide) 1 (by decide),
   id_above_all_present _ [] "t" [Value.vInt 3] (by decide) 3 (by decide)⟩

/-- Claim C2: resolving an NPC's ordered inventory id list against the Item
table yields exactly the records whose ids have a match, in the original
relative order; an id with no match is silently skipped (no error value, no
placeholder entry), and a matched id contributes its record in place. -/
theorem resolver_tolerance (itemT : Table) :
    (resolve itemT [] = []) ∧
    (∀ (i : Int) (ids : List Int), get_record_by_id itemT i = none →
      resolve itemT (i :: ids) = resolve itemT ids) ∧
    (∀ (i : Int) (r : Dict) (ids : List Int), get_record_by_id itemT i = some r →
      resolve itemT (i :: ids) = r :: resolve itemT ids) ∧
    (∀ ids : List Int,
      resolve itemT ids
        = (ids.filter (fun i => (get_record_by_id itemT i).isSome)).filterMap
            (fun i => get_record_by_id itemT i)) := by
  refine ⟨rfl, ?_, ?_, ?_⟩
  · intro i ids h
    simp [resolve, List.filterMap_cons, h]
  · intro i r ids h
    simp [resolve, List.filterMap_cons, h]
  · intro ids
    induction ids with
    | nil => rfl
    | cons i ids ih =>
      cases h : get_record_by_id itemT i with
      | none => simpa [resolve, List.filterMap_cons, List.filter_cons, h] using ih
      | some r => simpa [resolve, List.filterMap_cons, List.filter_cons, h] using ih

/-- Witness for claim C2: an inventory of one matched id between two
dangling ids resolves to exactly the one matched record, via the claim's
theorem applied at this concrete table. -/
theorem resolver_tolerance_witness :
    resolve ⟨itemHeaders, [[Value.vInt 1, Value.vStr "Espada"]]⟩ [7, 1, 9]
      = [[("id", Value.vInt 1), ("nombre", Value.vStr "Espada")]] := by
  have h := resolver_tolerance ⟨itemHeaders, [[Value.vInt 1, Value.vStr "Espada"]]⟩
  rw [h.2.1 7 [1, 9] (by decide),
    h.2.2.1 1 [("id", Value.vInt 1), ("nombre", Value.vStr "Espada")] [9] (by decide),
    h.2.1 9 [] (by decide), h.1]

/-- Claim C8: for each of the four mutating handlers (`npc_editar`,
`npc_eliminar`, `npc_item_agregar`, `npc_item_quitar`), the actor is
allowed exactly when the actor's id equals the record's stored creator id
or the actor holds the manage-channels capability; nothing else enters the
decision. -/
theorem authorization_gate (actorId : String) (npc : Dict) (manage : Bool) :
    (npc_editar_allowed actorId npc manage = true ↔
      (actorMatchesCreator actorId (dictGet npc "creador_id") = true ∨ manage = true)) ∧
    (npc_eliminar_allowed actorId npc manage = true ↔
      (actorMatchesCreator actorId (dictGet npc "creador_id") = true ∨ manage = true)) ∧
    (npc_item_agregar_allowed actorId npc manage = true ↔
      (actorMatchesCreator actorId (dictGet npc "creador_id") = true ∨ manage = true)) ∧
    (npc_item_quitar_allowed actorId npc manage = true ↔
      (actorMatchesCreator actorId (dictGet npc "creador_id") = true ∨ manage = true)) := by
  cases hc : actorMatchesCreator actorId (dictGet npc "creador_id") <;> cases manage <;>
    simp [npc_editar_allowed, npc_eliminar_allowed,
      npc_item_agregar_allowed, npc_item_quitar_allowed, hc]

/-! ## Helper lemmas on dictionaries and the row scans -/

theorem dictGet_snoc (d : Dict) (k k' : String) (v : Value) :
    dictGet (d ++ [(k, v)]) k' = if k = k' then some v else dictGet d k' := by
  by_cases h : k = k'
  · simp [dictGet, List.foldl_append, h]
  · simp [dictGet, List.foldl_append, h]

theorem applyUpdates_nil (hs : List String) (r : Row) : applyUpdates hs r [] = r := rfl

theorem applyUpdates_frame (hs : List String) (updates : List (String × Value))
    (r : Row) (c : Nat) (h : String) (hc : hs[c]? = some h)
    (hnot : ∀ v, (h, v) ∉ updates) :
    (applyUpdates hs r updates)[c]? = r[c]? := by
  induction updates generalizing r with
  | nil => rfl
  | cons p ps ih =>
    have hstep :
        (if p.1 ∈ hs then r.set (hs.indexOf p.1) p.2 else r)[c]? = r[c]? := by
      by_cases hmem : p.1 ∈ hs
      · have hne : hs.indexOf p.1 ≠ c := by
          intro he
          have h1 : hs[hs.indexOf p.1]? = some p.1 := List.getElem?_indexOf hmem
          rw [he, hc] at h1
          have hph : p.1 = h := by
            simpa using h1.symm
          exact hnot p.2 (by
            have : p = (h, p.2) := by
              cases p
              simpa using hph
            rw [← this]
            exact List.mem_cons_self p ps)
        rw [if_pos hmem, List.getElem?_set_ne hne]
      · rw [if_neg hmem]
    have hnot' : ∀ v, (h, v) ∉ ps := fun v hv =>
      hnot v (List.mem_cons_of_mem _ hv)
    calc (applyUpdates hs r (p :: ps))[c]?
        = (applyUpdates hs (if p.1 ∈ hs then r.set (hs.indexOf p.1) p.2 else r) ps)[c]? := rfl
      _ = (if p.1 ∈ hs then r.set (hs.indexOf p.1) p.2 else r)[c]? := ih _ hnot'
      _ = r[c]? := hstep

theorem updateRows_some_frame (hs : List String) (rid : Int)
    (updates : List (String × Value)) (c : Nat) (h : String)
    (hc : hs[c]? = some h) (hnot : ∀ v, (h, v) ∉ updates) :
    ∀ (rows rs : List Row), updateRows hs rid updates rows = some rs →
      ∀ j : Nat, (rs[j]?).map (fun r => r[c]?) = (rows[j]?).map (fun r => r[c]?) := by
  intro rows
  induction rows with
  | nil => intro rs hrs; simp [updateRows] at hrs
  | cons r rows' ih =>
    intro rs hrs j
    by_cases hm : (r.head? == some (.vInt rid)) = true
    · rw [updateRows, if_pos hm] at hrs
      cases hrs
      cases j with
      | zero =>
        simp only [List.getElem?_cons_zero, Option.map_some']
        rw [applyUpdates_frame hs updates r c h hc hnot]
      | succ j => simp [List.getElem?_cons_succ]
    · rw [updateRows, if_neg hm] at hrs
      cases hrec : updateRows hs rid updates rows' with
      | none => rw [hrec] at hrs; simp at hrs
      | some rs' =>
        rw [hrec] at hrs
        simp only [Option.map_some'] at hrs
        cases hrs
        cases j with
        | zero => simp
        | succ j =>
          simp only [List.getElem?_cons_succ]
          exact ih rs' hrec j

theorem updateRows_some_length (hs : List String) (rid : Int)
    (updates : List (String × Value)) :
    ∀ (rows rs : List Row), updateRows hs rid updates rows = some rs →
      rs.length = rows.length := by
  intro rows
  induction rows with
  | nil => intro rs hrs; simp [updateRows] at hrs
  | cons r rows' ih =>
    intro rs hrs
    by_cases hm : (r.head? == some (.vInt rid)) = true
    · rw [updateRows, if_pos hm] at hrs
      cases hrs
      simp
    · rw [updateRows, if_neg hm] at hrs
      cases hrec : updateRows hs rid updates rows' with
      | none => rw [hrec] at hrs; simp at hrs
      | some rs' =>
        rw [hrec] at hrs
        simp only [Option.map_some'] at hrs
        cases hrs
        simp [ih rs' hrec]

theorem updateRows_nil_updates (hs : List String) (rid : Int) :
    ∀ rows : List Row,
      updateRows hs rid [] rows
        = if rows.any (fun r => r.head? == some (.vInt rid)) then some rows else none := by
  intro rows
  induction rows with
  | nil => simp [updateRows]
  | cons r rows' ih =>
    by_cases hm : (r.head? == some (.vInt rid)) = true
    · rw [updateRows, if_pos hm]
      simp [List.any_cons, hm, applyUpdates_nil]
    · rw [updateRows, if_neg hm, ih]
      by_cases ha : rows'.any (fun r => r.head? == some (.vInt rid)) = true
      · simp [List.any_cons, hm, ha]
      · simp only [Bool.not_eq_true] at hm ha
        simp [List.any_cons, hm, ha]

theorem updateRows_unknown_key (hs : List String) (rid : Int)
    (updates : List (String × Value)) (h : String) (v : Value) (hout : h ∉ hs) :
    ∀ rows : List Row,
      updateRows hs rid ((h, v) :: updates) rows = updateRows hs rid updates rows := by
  have happ : ∀ r : Row, applyUpdates hs r ((h, v) :: updates) = applyUpdates hs r updates := by
    intro r
    calc applyUpdates hs r ((h, v) :: updates)
        = applyUpdates hs (if h ∈ hs then r.set (hs.indexOf h) v else r) updates := rfl
      _ = applyUpdates hs r updates := by rw [if_neg hout]
  intro rows
  induction rows with
  | nil => rfl
  | cons r rows' ih =>
    by_cases hm : (r.head? == some (.vInt rid)) = true
    · rw [updateRows, if_pos hm, updateRows, if_pos hm, happ]
    · rw [updateRows, if_neg hm, updateRows, if_neg hm, ih]

theorem not_present_updateRows (hs : List String) (rid : Int)
    (updates : List (String × Value)) :
    ∀ rows : List Row, rows.all (fun r => !(r.head? == some (.vInt rid))) = true →
      updateRows hs rid updates rows = none := by
  intro rows
  induction rows with
  | nil => intro _; rfl
  | cons r rows' ih =>
    intro hall
    simp only [List.all_cons, Bool.and_eq_true, Bool.not_eq_true'] at hall
    rw [updateRows, if_neg (by simp [hall.1]), ih (by simpa using hall.2)]
    rfl

theorem not_present_deleteRows (rid : Int) :
    ∀ rows : List Row, rows.all (fun r => !(r.head? == some (.vInt rid))) = true →
      deleteRows rid rows = none := by
  intro rows
  induction rows with
  | nil => intro _; rfl
  | cons r rows' ih =>
    intro hall
    simp only [List.all_cons, Bool.and_eq_true, Bool.not_eq_true'] at hall
    rw [deleteRows, if_neg (by simp [hall.1]), ih (by simpa using hall.2)]
    rfl

/-- Claim C3: `add_record` returns the maximum id currently present plus 1
(characterised by: one less than the returned id is itself a present id and
an upper bound of all present ids), or 1 when the table is empty; the new
row is appended after the existing rows, carries the returned id in the id
column, and carries the creation timestamp in the `fecha_creacion` column. -/
theorem create_assigns_next_id (t : Table) (data : Dict) (now : String) :
    (t.rows = [] → (add_record t data now).2 = 1) ∧
    ((∀ n ∈ tableIds t, 0 < n) → tableIds t ≠ [] →
      ((add_record t data now).2 - 1) ∈ tableIds t ∧
        ∀ n ∈ tableIds t, n ≤ (add_record t data now).2 - 1) ∧
    ((add_record t data now).1.rows.length = t.rows.length + 1) ∧
    ((add_record t data now).1.rows.take t.rows.length = t.rows) ∧
    (∀ c : Nat, t.headers[c]? = some "id" →
      ((add_record t data now).1.rows.getLast?.bind (fun r => r[c]?))
        = some (.vInt (add_record t data now).2)) ∧
    (∀ c : Nat, t.headers[c]? = some "fecha_creacion" →
      ((add_record t data now).1.rows.getLast?.bind (fun r => r[c]?))
        = some (.vStr now)) := by
  have hsnd : (add_record t data now).2 = (t.rows.foldl idMaxStep 0) + 1 := rfl
  have hrows : (add_record t data now).1.rows
      = t.rows ++ [t.headers.map (fun h =>
          ((dictGet (dictSet (dictSet data "id" (.vInt (get_next_id t)))
            "fecha_creacion" (.vStr now)) h).getD (.vStr "")))] := rfl
  refine ⟨?_, ?_, ?_, ?_, ?_, ?_⟩
  · intro h
    rw [hsnd, h]
    rfl
  · intro hpos hne
    rw [hsnd]
    have hmem := foldl_idMaxStep_mem t.rows 0 hpos
    constructor
    · rcases hmem with h0 | h0
      · exfalso
        rcases List.exists_mem_of_ne_nil _ hne with ⟨n, hn⟩
        have hb : n ≤ t.rows.foldl idMaxStep 0 := by
          rcases List.mem_filterMap.mp hn with ⟨r, hr, hrid⟩
          exact id_le_foldl_idMaxStep t.rows 0 r n hr hrid (by have := hpos n hn; omega)
        have := hpos n hn
        rw [h0] at hb
        omega
      · have e : t.rows.foldl idMaxStep 0 + 1 - 1 = t.rows.foldl idMaxStep 0 := by omega
        rw [e]
        exact h0
    · intro n hn
      rcases List.mem_filterMap.mp hn with ⟨r, hr, hrid⟩
      have := id_le_foldl_idMaxStep t.rows 0 r n hr hrid (by have := hpos n hn; omega)
      omega
  · rw [hrows]; simp
  · rw [hrows]; simp
  · intro c hc
    rw [hrows, List.getLast?_concat]
    simp only [Option.some_bind]
    rw [List.getElem?_map, hc]
    simp only [Option.map_some']
    unfold dictSet
    rw [dictGet_snoc, if_neg (by decide), dictGet_snoc, if_pos rfl]
    rfl
  · intro c hc
    rw [hrows, List.getLast?_concat]
    simp only [Option.some_bind]
    rw [List.getElem?_map, hc]
    simp only [Option.map_some']
    unfold dictSet
    rw [dictGet_snoc, if_pos rfl]
    rfl

/-- Witness for claim C3: on a table holding ids 1 and 3, the next created
id is 4 = max + 1; on the empty table it is 1; and the appended row of a
create on the empty NPC table carries the id and the timestamp. -/
theorem create_assigns_next_id_witness :
    (add_record ⟨npcHeaders, [[Value.vInt 1], [Value.vInt 3]]⟩ [] "t").2 - 1
        ∈ tableIds ⟨npcHeaders, [[Value.vInt 1], [Value.vInt 3]]⟩ ∧
    (add_record emptyNpcTable [] "t").2 = 1 ∧
    ((add_record emptyNpcTable [] "t").1.rows.getLast?.bind (fun r => r[0]?))
        = some (.vInt (add_record emptyNpcTable [] "t").2) ∧
    ((add_record emptyNpcTable [] "t").1.rows.getLast?.bind (fun r => r[8]?))
        = some (.vStr "t") :=
  ⟨((create_assigns_next_id ⟨npcHeaders, [[Value.vInt 1], [Value.vInt 3]]⟩ [] "t").2.1
      (by decide) (by decide)).1,
   (create_assigns_next_id emptyNpcTable [] "t").1 rfl,
   (create_assigns_next_id emptyNpcTable [] "t").2.2.2.2.1 0 (by decide),
   (create_assigns_next_id emptyNpcTable [] "t").2.2.2.2.2 8 (by decide)⟩

/-- Claim C4: `update_record` keeps the header row and the number of rows;
in every row, every column whose header is not named by the partial update
map keeps its exact cell value; an update entry whose key is not a schema
header is ignored without error (dropping it changes nothing); and an empty
update map returns the table byte-identical, succeeding exactly when the id
is present (no modified-timestamp column exists in either schema). -/
theorem update_frame (t : Table) (rid : Int) (updates : List (String × Value)) :
    ((update_record t rid updates).1.headers = t.headers) ∧
    ((update_record t rid updates).1.rows.length = t.rows.length) ∧
    (∀ (j c : Nat) (h : String), t.headers[c]? = some h →
      (∀ v, (h, v) ∉ updates) →
      (((update_record t rid updates).1.rows[j]?).map (fun r => r[c]?))
        = ((t.rows[j]?).map (fun r => r[c]?))) ∧
    (∀ (h : String) (v : Value), h ∉ t.headers →
      update_record t rid ((h, v) :: updates) = update_record t rid updates) ∧
    (update_record t rid [] = (t, presentB t rid)) := by
  refine ⟨?_, ?_, ?_, ?_, ?_⟩
  · unfold update_record
    cases updateRows t.headers rid updates t.rows <;> rfl
  · unfold update_record
    cases hrec : updateRows t.headers rid updates t.rows with
    | none => rfl
    | some rs => exact updateRows_some_length t.headers rid updates t.rows rs hrec
  · intro j c h hc hnot
    unfold update_record
    cases hrec : updateRows t.headers rid updates t.rows with
    | none => rfl
    | some rs => exact updateRows_some_frame t.headers rid updates c h hc hnot t.rows rs hrec j
  · intro h v hout
    unfold update_record
    rw [updateRows_unknown_key t.headers rid updates h v hout]
  · unfold update_record
    rw [updateRows_nil_updates]
    unfold presentB
    by_cases ha : t.rows.any (fun r => r.head? == some (.vInt rid)) = true
    · rw [if_pos ha, ha]
    · simp only [Bool.not_eq_true] at ha
      rw [if_neg (by simp [ha]), ha]

/-- Witness for claim C4: updating only the name of the one record of a
concrete table leaves the description column untouched, a bogus field name
is ignored, and the empty update returns the table unchanged with success. -/
theorem update_frame_witness :
    ((((update_record ⟨npcHeaders, [[Value.vInt 1, Value.vStr "a", Value.vStr "d"]]⟩ 1
        [("nombre", Value.vStr "b")]).1.rows[0]?).map (fun r => r[2]?))
      = (([[Value.vInt 1, Value.vStr "a", Value.vStr "d"]] : List Row)[0]?).map
          (fun r => r[2]?)) ∧
    (update_record ⟨npcHeaders, [[Value.vInt 1]]⟩ 1 [("bogus", Value.vStr "x")]
      = update_record ⟨npcHeaders, [[Value.vInt 1]]⟩ 1 []) ∧
    (update_record ⟨npcHeaders, [[Value.vInt 1]]⟩ 1 []
      = (⟨npcHeaders, [[Value.vInt 1]]⟩, true)) :=
  ⟨(update_frame ⟨npcHeaders, [[Value.vInt 1, Value.vStr "a", Value.vStr "d"]]⟩ 1
      [("nombre", Value.vStr "b")]).2.2.1 0 2 "descripcion" (by decide)
      (by intro v hv; simp at hv),
   (update_frame ⟨npcHeaders, [[Value.vInt 1]]⟩ 1 []).2.2.2.1 "bogus" (Value.vStr "x")
      (by decide),
   by
    have h := (update_frame ⟨npcHeaders, [[Value.vInt 1]]⟩ 1 []).2.2.2.2
    rw [h]
    rfl⟩

/-- Claim C9: when no data row carries the id, `update_record` and
`delete_record` both report failure and return the table exactly as it was:
no record is modified and nothing is persisted. -/
theorem notfound_atomic (t : Table) (rid : Int) (updates : List (String × Value))
    (habs : presentB t rid = false) :
    update_record t rid updates = (t, false) ∧ delete_record t rid = (t, false) := by
  have hall : t.rows.all (fun r => !(r.head? == some (.vInt rid))) = true := by
    unfold presentB at habs
    simpa [List.all_eq_not_any_not] using habs
  constructor
  · unfold update_record
    rw [not_present_updateRows t.headers rid updates t.rows hall]
  · unfold delete_record
    rw [not_present_deleteRows rid t.rows hall]

/-- Witness for claim C9: updating or deleting id 9 in a table that only
holds id 1 fails and leaves the table unchanged. -/
theorem notfound_atomic_witness :
    update_record ⟨npcHeaders, [[Value.vInt 1]]⟩ 9 [("nombre", Value.vStr "x")]
      = (⟨npcHeaders, [[Value.vInt 1]]⟩, false) ∧
    delete_record ⟨npcHeaders, [[Value.vInt 1]]⟩ 9 = (⟨npcHeaders, [[Value.vInt 1]]⟩, false) :=
  notfound_atomic ⟨npcHeaders, [[Value.vInt 1]]⟩ 9 [("nombre", Value.vStr "x")] (by decide)

/-! ## Helper lemmas for delete finality -/

theorem dictGet_no_key (k : String) :
    ∀ (d : Dict) (acc : Option Value), (∀ p ∈ d, p.1 ≠ k) →
      d.foldl (fun acc p => if p.1 == k then some p.2 else acc) acc = acc := by
  intro d
  induction d with
  | nil => intro acc _; rfl
  | cons p ps ih =>
    intro acc hall
    rw [List.foldl_cons, if_neg (by simp [hall p (List.mem_cons_self p ps)])]
    exact ih acc (fun q hq => hall q (List.mem_cons_of_mem _ hq))

theorem dictGet_rowToRecord_id (hs : List String) (row : Row)
    (hwf : idAtHeadOnly hs) :
    dictGet (rowToRecord hs row) "id" = row.head? := by
  obtain ⟨hhead, htail⟩ := hwf
  cases hs with
  | nil => simp at hhead
  | cons h0 htl =>
    simp only [List.head?_cons, Option.some.injEq] at hhead
    subst hhead
    cases row with
    | nil => rfl
    | cons v vs =>
      show dictGet (("id", v) :: List.zip htl vs) "id" = some v
      unfold dictGet
      rw [List.foldl_cons, if_pos (by simp)]
      apply dictGet_no_key
      intro p hp
      obtain ⟨a, b⟩ := p
      have := (List.of_mem_zip hp).1
      simp only [List.tail_cons] at htail
      intro he
      exact htail (he ▸ this)

theorem deleteRows_some_split (rid : Int) :
    ∀ (rows rs : List Row), deleteRows rid rows = some rs →
      ∃ pre r post, rows = pre ++ r :: post ∧ rs = pre ++ post ∧
        (r.head? == some (.vInt rid)) = true ∧
        ∀ r' ∈ pre, (r'.head? == some (.vInt rid)) = false := by
  intro rows
  induction rows with
  | nil => intro rs h; simp [deleteRows] at h
  | cons r rows' ih =>
    intro rs h
    by_cases hm : (r.head? == some (.vInt rid)) = true
    · rw [deleteRows, if_pos hm] at h
      cases h
      exact ⟨[], r, rows', by simp, by simp, hm, by simp⟩
    · rw [deleteRows, if_neg hm] at h
      cases hrec : deleteRows rid rows' with
      | none => rw [hrec] at h; simp at h
      | some rs' =>
        rw [hrec] at h
        simp only [Option.map_some'] at h
        cases h
        obtain ⟨pre, rr, post, h1, h2, h3, h4⟩ := ih rs' hrec
        refine ⟨r :: pre, rr, post, by simp [h1], by simp [h2], h3, ?_⟩
        intro r' hr'
        rcases List.mem_cons.mp hr' with h | h
        · subst h
          simpa using hm
        · exact h4 r' h

theorem present_deleteRows_some (rid : Int) :
    ∀ rows : List Row, rows.any (fun r => r.head? == some (.vInt rid)) = true →
      ∃ rs, deleteRows rid rows = some rs := by
  intro rows
  induction rows with
  | nil => intro h; simp at h
  | cons r rows' ih =>
    intro h
    by_cases hm : (r.head? == some (.vInt rid)) = true
    · exact ⟨rows', by rw [deleteRows, if_pos hm]⟩
    · have h' : rows'.any (fun r => r.head? == some (.vInt rid)) = true := by
        rcases (List.any_eq_true.mp h) with ⟨x, hx, hpx⟩
        rcases List.mem_cons.mp hx with he | he
        · exact absurd (he ▸ hpx) hm
        · exact List.any_eq_true.mpr ⟨x, he, hpx⟩
      obtain ⟨rs, hrs⟩ := ih h'
      exact ⟨r :: rs, by rw [deleteRows, if_neg hm, hrs]; rfl⟩

/-- Claim C5: when the id is present (and, as the data-model invariant
demands, present in at most one row, with `id` the first header), deleting
it succeeds, a subsequent read of that id reports not-found, and the item
table the bot holds alongside is untouched. -/
theorem delete_finality (s : BotState) (rid : Int)
    (hwf : idAtHeadOnly s.npcs.headers)
    (huniq : s.npcs.rows.countP (fun r => r.head? == some (.vInt rid)) ≤ 1)
    (hpres : presentB s.npcs rid = true) :
    (deleteNpc s rid).2 = true ∧
    get_record_by_id (deleteNpc s rid).1.npcs rid = none ∧
    (deleteNpc s rid).1.items = s.items := by
  obtain ⟨rs, hdel⟩ := present_deleteRows_some rid s.npcs.rows hpres
  have hnpc : deleteNpc s rid = (⟨⟨s.npcs.headers, rs⟩, s.items⟩, true) := by
    unfold deleteNpc delete_record
    rw [hdel]
  refine ⟨by rw [hnpc], ?_, by rw [hnpc]⟩
  rw [hnpc]
  obtain ⟨pre, r, post, h1, h2, h3, h4⟩ := deleteRows_some_split rid s.npcs.rows rs hdel
  have hnomatch : ∀ r' ∈ rs, (r'.head? == some (.vInt rid)) = false := by
    have hpost : post.countP (fun r => r.head? == some (.vInt rid)) = 0 := by
      have hc : s.npcs.rows.countP (fun r => r.head? == some (.vInt rid))
          = pre.countP (fun r => r.head? == some (.vInt rid))
            + (post.countP (fun r => r.head? == some (.vInt rid)) + 1) := by
        rw [h1, List.countP_append]
        simp [List.countP_cons, h3]
      omega
    intro r' hr'
    rw [h2] at hr'
    rcases List.mem_append.mp hr' with h | h
    · exact h4 r' h
    · have := List.countP_eq_zero.mp hpost r' h
      simpa using this
  unfold get_record_by_id
  apply List.find?_eq_none.mpr
  intro rec hrec
  unfold get_all_records at hrec
  rcases List.mem_map.mp hrec with ⟨row, hrow, hrecrow⟩
  have hrowrs : row ∈ rs := (List.mem_filter.mp hrow).1
  rw [← hrecrow]
  have hid := dictGet_rowToRecord_id s.npcs.headers row hwf
  simp only [hid]
  simp [hnomatch row hrowrs]

/-- Witness for claim C5: deleting id 1 from a one-NPC table succeeds, the
id then reads as not-found, and the item table is untouched. -/
theorem delete_finality_witness :
    (deleteNpc ⟨⟨npcHeaders, [[Value.vInt 1, Value.vStr "G"]]⟩,
        ⟨itemHeaders, [[Value.vInt 2, Value.vStr "E"]]⟩⟩ 1).2 = true ∧
    get_record_by_id (deleteNpc ⟨⟨npcHeaders, [[Value.vInt 1, Value.vStr "G"]]⟩,
        ⟨itemHeaders, [[Value.vInt 2, Value.vStr "E"]]⟩⟩ 1).1.npcs 1 = none ∧
    (deleteNpc ⟨⟨npcHeaders, [[Value.vInt 1, Value.vStr "G"]]⟩,
        ⟨itemHeaders, [[Value.vInt 2, Value.vStr "E"]]⟩⟩ 1).1.items
      = ⟨itemHeaders, [[Value.vInt 2, Value.vStr "E"]]⟩ :=
  delete_finality ⟨⟨npcHeaders, [[Value.vInt 1, Value.vStr "G"]]⟩,
    ⟨itemHeaders, [[Value.vInt 2, Value.vStr "E"]]⟩⟩ 1
    (by constructor <;> decide) (by decide) (by decide)

/-! ## Pagination lemmas -/

theorem chunk5_length {α : Type} : ∀ l : List α, (chunk5 l).length = (l.length + 4) / 5
  | [] => by simp [chunk5]
  | x :: xs => by
    have ih := chunk5_length ((x :: xs).drop 5)
    rw [chunk5]
    simp only [List.length_cons, List.length_drop] at ih ⊢
    omega
termination_by l => l.length
decreasing_by simp [List.length_drop]; omega

theorem chunk5_getElem {α : Type} : ∀ (l : List α) (c : Nat), c < (chunk5 l).length →
    (chunk5 l)[c]? = some ((l.drop (c * 5)).take 5)
  | [], c => by simp [chunk5]
  | x :: xs, 0 => by
    intro h
    rw [chunk5]
    simp
  | x :: xs, c + 1 => by
    intro h
    rw [chunk5] at h ⊢
    simp only [List.length_cons] at h
    rw [List.getElem?_cons_succ]
    rw [chunk5_getElem ((x :: xs).drop 5) c (by omega)]
    rw [List.drop_drop]
    have he : (c + 1) * 5 = 5 + c * 5 := by ring
    rw [he]
termination_by l => l.length
decreasing_by simp [List.length_drop]; omega

/-- Claim C6: chunking a document list into pages of five yields
`ceil(N / 5)` pages; the previous transition is `max(0, cursor - 1)` and
the next transition is `min(pageCount - 1, cursor + 1)`, so each is a no-op
at its boundary; and the page at cursor `c` is the slice starting at
`c * 5` of length at most five. -/
theorem pagination_boundary {α : Type} :
    (∀ l : List α, (chunk5 l).length = (l.length + 4) / 5) ∧
    (∀ c : Int, prevCursor c = max 0 (c - 1)) ∧
    (∀ numPages c : Int, nextCursor numPages c = min (numPages - 1) (c + 1)) ∧
    (prevCursor 0 = 0) ∧
    (∀ numPages : Int, nextCursor numPages (numPages - 1) = numPages - 1) ∧
    (∀ (l : List α) (c : Nat), c < (chunk5 l).length →
      (chunk5 l)[c]? = some ((l.drop (c * 5)).take 5)) := by
  refine ⟨chunk5_length, fun _ => rfl, fun _ _ => rfl, rfl, ?_, chunk5_getElem⟩
  intro numPages
  unfold nextCursor
  omega

/-- Witness for claim C6: with twelve documents and page size five there
are three pages, the previous transition at cursor 0 and the next
transition at cursor 2 are no-ops, and the page at cursor 1 holds documents
5 through 9. -/
theorem pagination_boundary_witness :
    (chunk5 (List.range 12)).length = 3 ∧
    prevCursor 0 = 0 ∧
    nextCursor 3 2 = 2 ∧
    (chunk5 (List.range 12))[1]? = some [5, 6, 7, 8, 9] := by
  have h := @pagination_boundary Nat
  refine ⟨?_, h.2.2.2.1, ?_, ?_⟩
  · rw [h.1 (List.range 12)]
    decide
  · have := h.2.2.2.2.1 3
    norm_num at this
    exact this
  · rw [h.2.2.2.2.2 (List.range 12) 1 (by rw [h.1 (List.range 12)]; decide)]
    decide

/-- Claim C7, counterexample: the next button's code disables it whenever
`cursor >= pageCount - 1`; at page count 3 and cursor 5 it is disabled
although the cursor does not equal `pageCount - 1 = 2`, so "disabled if and
only if cursor equals pageCount - 1" fails when quantified over every
cursor value. -/
theorem button_enablement_cex :
    nextDisabled 3 5 = true ∧ ¬ ((5 : Int) = 3 - 1) := by decide

/-- Claim C7 (amended): the previous button is disabled exactly when the
cursor is 0; the next button is disabled exactly when the cursor is at
least `pageCount - 1`, which for every cursor within range
(`cursor ≤ pageCount - 1`, as the transitions maintain) is the same as the
cursor equalling `pageCount - 1`; nothing else enters either decision. -/
theorem button_enablement (numPages c : Int) :
    (prevDisabled c = true ↔ c = 0) ∧
    (nextDisabled numPages c = true ↔ numPages - 1 ≤ c) ∧
    (c ≤ numPages - 1 → (nextDisabled numPages c = true ↔ c = numPages - 1)) := by
  refine ⟨?_, ?_, ?_⟩
  · simp [prevDisabled]
  · simp [nextDisabled]
  · intro h
    simp only [nextDisabled, decide_eq_true_eq]
    omega

/-- Witness for the amended claim C7: at page count 3 the previous button
is disabled at cursor 0, the next button is disabled at cursor 2 and
enabled at cursor 0. -/
theorem button_enablement_witness :
    prevDisabled 0 = true ∧ nextDisabled 3 2 = true ∧ nextDisabled 3 0 = false := by
  refine ⟨(button_enablement 3 0).1.mpr rfl, ?_, ?_⟩
  · exact ((button_enablement 3 2).2.2 (by decide)).mpr (by decide)
  · have h := (button_enablement 3 0).2.2 (by decide)
    by_cases hx : nextDisabled 3 0 = true
    · exact absurd (h.mp hx) (by decide)
    · simpa using hx

/-- Claim C10: with the NPC and the item found and the actor authorised,
adding an item id that is already in the parsed inventory is rejected as a
duplicate and the NPC table is returned unchanged; adding an absent id
stores, through `update_record`, the inventory list with the id appended at
the end; and appending an absent id keeps the id list free of duplicates. -/
theorem inventory_add_unique (npcT itemT : Table) (nid iid : Int)
    (actor : String) (manage : Bool) (npc : Dict) (s : String) (items : List Int)
    (hn : get_record_by_id npcT nid = some npc)
    (hi : (get_record_by_id itemT iid).isSome = true)
    (hp : npc_item_agregar_allowed actor npc manage = true)
    (hs : invFieldString npc = some s)
    (hparse : parseInv s = some items) :
    (iid ∈ items →
      npc_item_agregar npcT itemT nid iid actor manage
        = some (npcT, .alreadyHas)) ∧
    (iid ∉ items →
      npc_item_agregar npcT itemT nid iid actor manage
        = some ((update_record npcT nid
              [("inventario", .vStr (serializeInv (items ++ [iid])))]).1,
            if (update_record npcT nid
              [("inventario", .vStr (serializeInv (items ++ [iid])))]).2
            then AddItemResult.added else AddItemResult.updateFailed)) ∧
    (items.Nodup → iid ∉ items → (items ++ [iid]).Nodup) := by
  obtain ⟨item, hitem⟩ := Option.isSome_iff_exists.mp hi
  refine ⟨?_, ?_, ?_⟩
  · intro hin
    simp only [npc_item_agregar, hn, hitem, hs, hparse, hp, Bool.not_true,
      Bool.false_eq_true, if_false, if_pos hin]
  · intro hout
    simp only [npc_item_agregar, hn, hitem, hs, hparse, hp, Bool.not_true,
      Bool.false_eq_true, if_false, if_neg hout]
    cases hb : (update_record npcT nid
        [("inventario", Value.vStr (serializeInv (items ++ [iid])))]).2 <;>
      simp [hb]
  · intro h1 h2
    simp [List.nodup_append, h1, h2]

/-- Witness for claim C10: on a concrete pair of tables where NPC 1 has
inventory "2", adding item 2 again is rejected with the table unchanged,
and adding item 3 stores "2,3". -/
theorem inventory_add_unique_witness :
    (npc_item_agregar ⟨npcHeaders, [[Value.vInt 1, Value.vStr "G", Value.vStr "",
        Value.vStr "", Value.vStr "Neutro", Value.vNone, Value.vStr "2",
        Value.vStr "77", Value.vStr "T", Value.vStr ""]]⟩
      ⟨itemHeaders, [[Value.vInt 2, Value.vStr "E"], [Value.vInt 3, Value.vStr "F"]]⟩
      1 2 "77" false
      = some (⟨npcHeaders, [[Value.vInt 1, Value.vStr "G", Value.vStr "",
          Value.vStr "", Value.vStr "Neutro", Value.vNone, Value.vStr "2",
          Value.vStr "77", Value.vStr "T", Value.vStr ""]]⟩, .alreadyHas)) ∧
    (npc_item_agregar ⟨npcHeaders, [[Value.vInt 1, Value.vStr "G", Value.vStr "",
        Value.vStr "", Value.vStr "Neutro", Value.vNone, Value.vStr "2",
        Value.vStr "77", Value.vStr "T", Value.vStr ""]]⟩
      ⟨itemHeaders, [[Value.vInt 2, Value.vStr "E"], [Value.vInt 3, Value.vStr "F"]]⟩
      1 3 "77" false
      = some ((update_record ⟨npcHeaders, [[Value.vInt 1, Value.vStr "G", Value.vStr "",
          Value.vStr "", Value.vStr "Neutro", Value.vNone, Value.vStr "2",
          Value.vStr "77", Value.vStr "T", Value.vStr ""]]⟩ 1
            [("inventario", .vStr (serializeInv ([2] ++ [3])))]).1,
          if (update_record ⟨npcHeaders, [[Value.vInt 1, Value.vStr "G", Value.vStr "",
          Value.vStr "", Value.vStr "Neutro", Value.vNone, Value.vStr "2",
          Value.vStr "77", Value.vStr "T", Value.vStr ""]]⟩ 1
            [("inventario", .vStr (serializeInv ([2] ++ [3])))]).2
          then AddItemResult.added else AddItemResult.updateFailed)) := by
  constructor
  · exact (inventory_add_unique _ _ 1 2 "77" false
      (rowToRecord npcHeaders [Value.vInt 1, Value.vStr "G", Value.vStr "",
        Value.vStr "", Value.vStr "Neutro", Value.vNone, Value.vStr "2",
        Value.vStr "77", Value.vStr "T", Value.vStr ""]) "2" [2]
      (by decide) (by decide) (by decide) (by decide) (by decide)).1 (by decide)
  · exact (inventory_add_unique _ _ 1 3 "77" false
      (rowToRecord npcHeaders [Value.vInt 1, Value.vStr "G", Value.vStr "",
        Value.vStr "", Value.vStr "Neutro", Value.vNone, Value.vStr "2",
        Value.vStr "77", Value.vStr "T", Value.vStr ""]) "2" [2]
      (by decide) (by decide) (by decide) (by decide) (by decide)).2.1 (by decide)

end NPCBot
